import Mathlib

/-!
Verification of the thrylos proof-of-stake blockchain node against its
natural-language specification.  The Go sources are shallowly embedded:
pure functions become Lean functions, the BadgerDB key-value store becomes
an association list iterated in key order, machine integers become Int/Nat,
fallible code returns Option/Except, and the external crypto libraries
(Ed25519, the AES block cipher) are modelled abstractly while BLAKE2b-256
is implemented in full.
-/

namespace Thrylos

/-! ## Shared data model

shared.UTXO: the struct declaration itself is not among the given sources;
its fields are fixed by every use site (MarkUTXOAsSpent sets IsSpent,
ConvertLocalTransactionToThrylosTransaction reads TransactionID, Index,
OwnerAddress, Amount) and by the spec's tuple
(transaction-id, index, owner, amount, spent).  thrylos.UTXO (the protobuf
message) carries the same first four fields; we reuse this record for it,
with isSpent unused there. -/

structure UTXO where
  transactionID : String
  index : Int
  ownerAddress : String
  amount : Int
  isSpent : Bool
deriving DecidableEq

/-! ## Idealized Ed25519 and the proto wire form

The code signs and verifies byte strings produced by proto.Marshal and by
cachedHashData (BLAKE2b-256 of such bytes).  We model the byte strings that
can appear as signing/verification messages by an inductive type: `raw` is
the marshalled transaction (its cleared-signature body plus whatever the
signature field held at marshal time, since proto3 emits a non-empty bytes
field and omits an empty one), and `hashed` is cachedHashData of such a
byte string.  Constructor disjointness and injectivity model an unambiguous
encoding and a collision-free hash.  Ed25519 is idealized as EUF-CMA
perfect: a signature verifies exactly when it was produced by the matching
key over exactly the message being verified. -/

/-- The signature-free part of a thrylos.Transaction, i.e. what remains
after `txCopy.Signature = []byte("")`. -/
structure TxBody where
  id : String
  sender : String
  timestamp : Int
  inputs : List UTXO
  outputs : List UTXO
  previousTxIds : List String
deriving DecidableEq

mutual
/-- The Signature field of a thrylos.Transaction: either the empty byte
slice (proto3 does not emit it) or an Ed25519 signature, idealized as the
signing key together with the signed message. -/
inductive SigField where
  | empty : SigField
  | sig : Nat → Msg → SigField

/-- A byte string that the code signs, hashes or verifies. -/
inductive Msg where
  | raw : TxBody → SigField → Msg
  | hashed : Msg → Msg
end

mutual
def SigField.beq : SigField → SigField → Bool
  | .empty, .empty => true
  | .sig k1 m1, .sig k2 m2 => k1 == k2 && Msg.beq m1 m2
  | _, _ => false

def Msg.beq : Msg → Msg → Bool
  | .raw b1 s1, .raw b2 s2 => b1 == b2 && SigField.beq s1 s2
  | .hashed m1, .hashed m2 => Msg.beq m1 m2
  | _, _ => false
end

/-- ed25519.Sign: produce a signature of message m under private key k
(private and public key of a pair share the identifier k). -/
def ed25519Sign (k : Nat) (m : Msg) : SigField := .sig k m

/-- ed25519.Verify: succeeds exactly for a signature made by the matching
key over exactly this message; an empty signature never verifies. -/
def ed25519Verify (pub : Nat) (m : Msg) (s : SigField) : Bool :=
  match s with
  | .empty => false
  | .sig k m2 => k == pub && Msg.beq m2 m

/-- thrylos.Transaction (the protobuf message the signing code operates
on): id, sender, timestamp, inputs, outputs, signature, previousTxIds. -/
structure ThrylosTx where
  id : String
  sender : String
  timestamp : Int
  inputs : List UTXO
  outputs : List UTXO
  signature : SigField
  previousTxIds : List String

/-- The signature-free body of a transaction. -/
def ThrylosTx.body (tx : ThrylosTx) : TxBody :=
  { id := tx.id, sender := tx.sender, timestamp := tx.timestamp,
    inputs := tx.inputs, outputs := tx.outputs,
    previousTxIds := tx.previousTxIds }

/-- proto.Marshal: the encoded bytes are determined by the body and by the
signature field (empty is omitted, non-empty is emitted). -/
def protoMarshal (tx : ThrylosTx) : Msg := Msg.raw tx.body tx.signature

/-- txCopy.Signature = []byte(""): clear the signature field. -/
def clearSignature (tx : ThrylosTx) : ThrylosTx :=
  { tx with signature := .empty }

/-- cachedHashData: BLAKE2b-256 of an encoded byte string. -/
def cachedHashData (m : Msg) : Msg := Msg.hashed m

/-- SignTransaction (shared package): serialize the transaction as it
currently stands, sign those bytes with Ed25519, store the signature in
the Signature field. -/
def signTransaction (tx : ThrylosTx) (k : Nat) : ThrylosTx :=
  let txBytes := protoMarshal tx
  { tx with signature := ed25519Sign k txBytes }

/-- VerifyTransactionSignature (shared package): serialize the transaction
as given - the filled Signature field included - and verify the stored
signature over those bytes. -/
def verifyTransactionSignature (tx : ThrylosTx) (pub : Nat) : Except String Unit :=
  let txBytes := protoMarshal tx
  if ed25519Verify pub txBytes tx.signature then Except.ok ()
  else Except.error "Ed25519 signature verification failed"

/-- VerifyTransaction (part_002 revision of the shared package): reject if
inputs are empty; look up the sender's public key; clear the signature on a
copy, serialize it, hash the bytes with cachedHashData, and verify the
stored signature against that hash.  The function then returns (true, nil):
the announced UTXO checks and sum validation are absent from the code
(`// The remaining logic for UTXO checks and sum validation remains
unchanged...`).  The utxos argument is accordingly never read. -/
def verifyTransaction (tx : ThrylosTx) (utxos : List (String × List UTXO))
    (getPublicKeyFunc : String → Except String Nat) : Except String Bool :=
  if tx.inputs.isEmpty then Except.error "Transaction has no inputs"
  else
    match getPublicKeyFunc tx.sender with
    | Except.error _ => Except.error "Error retrieving Ed25519 public key"
    | Except.ok pub =>
      let txCopy := clearSignature tx
      let txBytes := protoMarshal txCopy
      let cachedHash := cachedHashData txBytes
      if ed25519Verify pub cachedHash tx.signature then Except.ok true
      else Except.error "Transaction signature verification failed"

/-- strconv.Itoa on a Go int. -/
def intRepr (i : Int) : String :=
  if i < 0 then "-" ++ Nat.repr i.natAbs else Nat.repr i.natAbs

/-- The input-sum loop of ValidateTransaction: look up each input under the
key TransactionID + Itoa(Index); missing key or empty slice aborts with
false (none); otherwise the first stored UTXO's amount is added. -/
def inputSumLoop (availableUTXOs : List (String × List UTXO)) :
    List UTXO → Option Int
  | [] => some 0
  | i :: rest =>
    match availableUTXOs.lookup (i.transactionID ++ intRepr i.index) with
    | none => none
    | some [] => none
    | some (u :: _) =>
      match inputSumLoop availableUTXOs rest with
      | none => none
      | some s => some (u.amount + s)

/-- Sum of the Amount fields of a UTXO list. -/
def sumAmounts (l : List UTXO) : Int := l.foldl (fun s u => s + u.amount) 0

/-- ValidateTransaction (shared package): true iff every input resolves in
availableUTXOs and the resolved input sum equals the output sum. -/
def validateTransaction (tx : ThrylosTx) (availableUTXOs : List (String × List UTXO)) : Bool :=
  match inputSumLoop availableUTXOs tx.inputs with
  | none => false
  | some inputSum => inputSum == sumAmounts tx.outputs

/-! ## Node: pending pool and validator selection (core package) -/

/-- Node.AddPendingTransaction: unconditionally appends the transaction to
the PendingTransactions slice and returns nil. -/
def addPendingTransaction (pendingTransactions : List ThrylosTx) (tx : ThrylosTx) :
    List ThrylosTx :=
  pendingTransactions ++ [tx]

/-- Node.HasTransaction: whether a pending transaction has the given id
(defined in the source but called by no admission path). -/
def hasTransaction (pendingTransactions : List ThrylosTx) (txID : String) : Bool :=
  pendingTransactions.any (fun tx => tx.id == txID)

/-- Blockchain.TotalStake / the summing loop of SelectValidator. -/
def totalStake (stakeholders : List (String × Int)) : Int :=
  stakeholders.foldl (fun acc p => acc + p.2) 0

/-- The subtracting walk of SelectValidator: randStake -= stake; if
randStake < 0 return address; the fallthrough returns "" (none). -/
def walkStake : Int → List (String × Int) → Option String
  | _, [] => none
  | r, (address, stake) :: rest =>
    let r2 := r - stake
    if r2 < 0 then some address else walkStake r2 rest

/-- Blockchain.SelectValidator.  The Stakeholders Go map is embedded as an
association list; the list order is the enumeration order of the map range
loop, which Go leaves unspecified, so the function is parametrized by it.
The secure random draw r (SecureRandomInt(totalStake)) is passed in.  A
zero total stake returns "" before drawing, modelled as none. -/
def selectValidator (stakeholders : List (String × Int)) (r : Int) : Option String :=
  if totalStake stakeholders == 0 then none
  else walkStake r stakeholders

/-! ## Byte-string keys and store iteration order -/

/-- The bytes of an ASCII key, for BadgerDB's byte-wise key comparison. -/
def strBytes (s : String) : List Nat := s.data.map Char.toNat

/-- Byte-wise lexicographic strict order, as bytes.Compare orders keys. -/
def lexLtBytes : List Nat → List Nat → Bool
  | [], [] => false
  | [], _ :: _ => true
  | _ :: _, [] => false
  | a :: as, b :: bs => if a < b then true else if b < a then false else lexLtBytes as bs

/-- Key order of the store. -/
def keyLt (a b : String) : Bool := lexLtBytes (strBytes a) (strBytes b)

/-- Insert into a key-descending list. -/
def insertDesc {α : Type} (p : String × α) : List (String × α) → List (String × α)
  | [] => [p]
  | q :: qs => if keyLt q.1 p.1 then p :: q :: qs else q :: insertDesc p qs

/-- The store's entries in descending key order (reverse iteration). -/
def sortDesc {α : Type} : List (String × α) → List (String × α)
  | [] => []
  | p :: ps => insertDesc p (sortDesc ps)

/-- Insert into a key-ascending list. -/
def insertAsc {α : Type} (p : String × α) : List (String × α) → List (String × α)
  | [] => [p]
  | q :: qs => if keyLt p.1 q.1 then p :: q :: qs else q :: insertAsc p qs

/-- The store's entries in ascending key order (forward iteration). -/
def sortAsc {α : Type} : List (String × α) → List (String × α)
  | [] => []
  | p :: ps => insertAsc p (sortAsc ps)

/-- Whether pat is a leading pattern of cs; if so return the remainder
(strings.HasPrefix combined with strings.TrimPrefix). -/
def dropPat : List Char → List Char → Option (List Char)
  | [], rest => some rest
  | _ :: _, [] => none
  | p :: ps, c :: cs => if c = p then dropPat ps cs else none

/-- Decimal digit parse of strconv.Atoi restricted to the digit strings
that occur as block-key suffixes (empty or non-digit input fails). -/
def parseDec (cs : List Char) : Option Nat :=
  if cs.isEmpty then none
  else
    cs.foldl (fun acc c =>
      match acc with
      | none => none
      | some n =>
        if '0' ≤ c ∧ c ≤ '9' then some (n * 10 + (c.toNat - 48)) else none)
      (some 0)

/-! ## BlockchainDB (database package)

The BadgerDB store is embedded as an association list from string keys to
the stored values (JSON marshal/unmarshal of a value is the identity);
iterators visit entries in ascending key order, reverse iterators in
descending key order. -/

/-- BlockchainDB.GetUTXOsForAddress: iterate the keys with byte prefix
utxo-{address}- and collect every stored UTXO.  No IsSpent check is made:
entries rewritten in place as spent by MarkUTXOAsSpent are returned too. -/
def getUTXOsForAddress (store : List (String × UTXO)) (address : String) :
    List UTXO :=
  ((sortAsc store).filter
    (fun kv => (dropPat ("utxo-" ++ address ++ "-").data kv.1.data).isSome)).map
    Prod.snd

/-- BlockchainDB.GetUTXOs: iterate the keys with byte prefix utxo-{address}
(no trailing dash) and keep a stored UTXO only if !utxo.IsSpent.  The Go
function files the survivors under the address key of a map; we return that
list. -/
def getUTXOs (store : List (String × UTXO)) (address : String) : List UTXO :=
  ((sortAsc store).filter
    (fun kv => (dropPat ("utxo-" ++ address).data kv.1.data).isSome
      && !kv.2.isSpent)).map Prod.snd

/-- BlockchainDB.GetUTXOsForUser: filter the supplied utxos map by
OwnerAddress == address; the IsSpent flag is never consulted.  The Go map
is embedded as an association list and the unspecified map-range order as
the list order. -/
def getUTXOsForUser (address : String) (utxos : List (String × UTXO)) :
    List UTXO :=
  (utxos.map Prod.snd).filter (fun u => u.ownerAddress == address)

/-- BlockchainDB.GetBalance: sum of the amounts GetUTXOsForUser returns. -/
def getBalance (address : String) (utxos : List (String × UTXO)) : Int :=
  sumAmounts (getUTXOsForUser address utxos)

/-- The reverse-iteration loop of GetLastBlockData: first key (in
descending byte order over the whole keyspace) carrying the block- prefix;
its decimal suffix is parsed with Atoi and its value returned. -/
def lastBlockLoop : List (String × List Nat) → Except String (List Nat × Nat)
  | [] => Except.error "no blocks found in the database"
  | (k, v) :: rest =>
    match dropPat "block-".data k.data with
    | none => lastBlockLoop rest
    | some suffixChars =>
      match parseDec suffixChars with
      | none => Except.error "error parsing block number"
      | some n => Except.ok (v, n)

/-- BlockchainDB.GetLastBlockData. -/
def getLastBlockData (store : List (String × List Nat)) :
    Except String (List Nat × Nat) :=
  lastBlockLoop (sortDesc store)

/-- BlockchainDB.GetLastBlockIndex: inspects only the first entry of the
reverse iteration (`if it.Rewind(); it.Valid()`); if that single greatest
key does not carry the block- prefix the function reports that no blocks
were found. -/
def getLastBlockIndex (store : List (String × List Nat)) : Except String Nat :=
  match sortDesc store with
  | [] => Except.error "no blocks found in the database"
  | (k, _) :: _ =>
    match dropPat "block-".data k.data with
    | none => Except.error "no blocks found in the database"
    | some suffixChars =>
      match parseDec suffixChars with
      | none => Except.error "error parsing block number"
      | some n => Except.ok n

/-! ## Validator selection as the spec words it (for comparison) -/

/-- Validator selection as specified: walk the stakeholders in canonical
(lexicographic by address) order, subtracting each stake from r until
r < 0; empty table fails explicitly.  This follows the wording of the spec
and exists to be compared with selectValidator above. -/
def specSelectValidator (stakeholders : List (String × Int)) (r : Int) :
    Option String :=
  if stakeholders.isEmpty then none
  else walkStake r (sortAsc stakeholders)

/-! ## Staking reward calculator

Modelled from the spec: StakingService.calculateStakeReward,
createStakeInternal and unstakeTokensInternal are exercised by
core/staking_test.go but their definitions are not among the given
sources.  Spec 4.6: an address's stake history is an ordered event log
(timestamp, delta); events are clamped to the reward period, anything
earlier contributing as a constant from T0 and anything later truncated at
T1; the stake-time integral is summed over the piecewise-constant curve
and the period budget is distributed proportionally with banker's
rounding. -/

/-- Modelled from the spec: the stake-time integral of an ordered event
log, accumulated from time t with current stake cur up to T1. -/
def stakeIntegral (T1 : Int) : Int → Int → List (Int × Int) → Int
  | t, cur, [] => cur * (T1 - t)
  | t, cur, (ts, d) :: rest =>
    if ts ≤ t then stakeIntegral T1 t (cur + d) rest
    else if T1 ≤ ts then cur * (T1 - t)
    else cur * (ts - t) + stakeIntegral T1 ts (cur + d) rest

/-- Modelled from the spec: the integral over the period [T0, T1]. -/
def integralOver (T0 T1 : Int) (events : List (Int × Int)) : Int :=
  stakeIntegral T1 T0 0 events

/-- The event log recorded for an address (missing address: empty log). -/
def histOf (table : List (String × List (Int × Int))) (a : String) :
    List (Int × Int) :=
  (table.lookup a).getD []

/-- Modelled from the spec: banker's rounding of num/den for den > 0. -/
def roundHalfEven (num den : Int) : Int :=
  let q := Int.ediv num den
  let r := Int.emod num den
  if 2 * r < den then q
  else if den < 2 * r then q + 1
  else if Int.emod q 2 == 0 then q else q + 1

/-- Modelled from the spec: total stake-time integral over all logged
addresses. -/
def totalIntegral (T0 T1 : Int) (table : List (String × List (Int × Int))) : Int :=
  table.foldl (fun acc p => acc + integralOver T0 T1 p.2) 0

/-- Modelled from the spec: calculateStakeReward for one address - the
period budget times the address's share of the total stake-time integral,
banker's-rounded; a non-positive total integral pays nothing. -/
def calculateStakeReward (T0 T1 budget : Int)
    (table : List (String × List (Int × Int))) (a : String) : Int :=
  let ia := integralOver T0 T1 (histOf table a)
  let itot := totalIntegral T0 T1 table
  if itot ≤ 0 then 0 else roundHalfEven (budget * ia) itot

/-! ## BLAKE2b-256 (golang.org/x/crypto/blake2b, unkeyed, 32-byte digest)

The hash the address-derivation code calls, implemented in full per RFC
7693 over byte lists (bytes are Nat below 256, 64-bit words are Nat
reduced modulo 2^64).  Validated against the standard test vectors:
blake2b-256 of the empty string is 0e5751c0...f12fe3a8 and of the bytes
of abc is bddd813c...68d52319. -/

/-- 2^64. -/
def w64 : Nat := 18446744073709551616

/-- Rotate a 64-bit word right by n. -/
def rotr64 (x n : Nat) : Nat :=
  ((x >>> n) ||| (x <<< (64 - n))) % w64

/-- The BLAKE2b initialization vector. -/
def blakeIV : List Nat :=
  [0x6a09e667f3bcc908, 0xbb67ae8584caa73b, 0x3c6ef372fe94f82b,
   0xa54ff53a5f1d36f1, 0x510e527fade682d1, 0x9b05688c2b3e6c1f,
   0x1f83d9abfb41bd6b, 0x5be0cd19137e2179]

/-- The BLAKE2b message schedule. -/
def blakeSigma : List (List Nat) :=
  [[0, 1, 2, 3, 4, 5, 6, 7, 8, 9, 10, 11, 12, 13, 14, 15],
   [14, 10, 4, 8, 9, 15, 13, 6, 1, 12, 0, 2, 11, 7, 5, 3],
   [11, 8, 12, 0, 5, 2, 15, 13, 10, 14, 3, 6, 7, 1, 9, 4],
   [7, 9, 3, 1, 13, 12, 11, 14, 2, 6, 5, 10, 4, 0, 15, 8],
   [9, 0, 5, 7, 2, 4, 10, 15, 14, 1, 11, 12, 6, 8, 3, 13],
   [2, 12, 6, 10, 0, 11, 8, 3, 4, 13, 7, 5, 15, 14, 1, 9],
   [12, 5, 1, 15, 14, 13, 4, 10, 0, 7, 6, 3, 9, 2, 8, 11],
   [13, 11, 7, 14, 12, 1, 3, 9, 5, 0, 15, 4, 8, 6, 2, 10],
   [6, 15, 14, 9, 11, 3, 0, 8, 12, 2, 13, 7, 1, 4, 10, 5],
   [10, 2, 8, 4, 7, 6, 1, 5, 15, 11, 9, 14, 3, 12, 13, 0]]

/-- Word i of a working vector (out of range reads 0). -/
def lget (l : List Nat) (i : Nat) : Nat := l.getD i 0

/-- The BLAKE2b G mixing function on rows a b c d of the work vector. -/
def gMix (v : List Nat) (a b c d x y : Nat) : List Nat :=
  let va := (lget v a + lget v b + x) % w64
  let vd := rotr64 ((lget v d) ^^^ va) 32
  let vc := (lget v c + vd) % w64
  let vb := rotr64 ((lget v b) ^^^ vc) 24
  let va2 := (va + vb + y) % w64
  let vd2 := rotr64 (vd ^^^ va2) 16
  let vc2 := (vc + vd2) % w64
  let vb2 := rotr64 (vb ^^^ vc2) 63
  ((((v.set a va2).set b vb2).set c vc2).set d vd2)

/-- One BLAKE2b round with message words m under schedule row s. -/
def blakeRound (m : List Nat) (v : List Nat) (s : List Nat) : List Nat :=
  let v := gMix v 0 4 8 12 (lget m (lget s 0)) (lget m (lget s 1))
  let v := gMix v 1 5 9 13 (lget m (lget s 2)) (lget m (lget s 3))
  let v := gMix v 2 6 10 14 (lget m (lget s 4)) (lget m (lget s 5))
  let v := gMix v 3 7 11 15 (lget m (lget s 6)) (lget m (lget s 7))
  let v := gMix v 0 5 10 15 (lget m (lget s 8)) (lget m (lget s 9))
  let v := gMix v 1 6 11 12 (lget m (lget s 10)) (lget m (lget s 11))
  let v := gMix v 2 7 8 13 (lget m (lget s 12)) (lget m (lget s 13))
  let v := gMix v 3 4 9 14 (lget m (lget s 14)) (lget m (lget s 15))
  v

/-- Little-endian 64-bit words of a 128-byte block. -/
def bytesToWords64 : List Nat → List Nat
  | b0 :: b1 :: b2 :: b3 :: b4 :: b5 :: b6 :: b7 :: rest =>
    (b0 + b1 * 256 + b2 * 256 ^ 2 + b3 * 256 ^ 3 + b4 * 256 ^ 4 +
      b5 * 256 ^ 5 + b6 * 256 ^ 6 + b7 * 256 ^ 7) :: bytesToWords64 rest
  | _ => []

/-- Little-endian bytes of a 64-bit word. -/
def word64ToBytes (x : Nat) : List Nat :=
  [x % 256, x / 256 % 256, x / 256 ^ 2 % 256, x / 256 ^ 3 % 256,
   x / 256 ^ 4 % 256, x / 256 ^ 5 % 256, x / 256 ^ 6 % 256, x / 256 ^ 7 % 256]

/-- The BLAKE2b compression function on state h, one block, byte counter t
and the final-block flag. -/
def compress (h : List Nat) (block : List Nat) (t : Nat) (final : Bool) :
    List Nat :=
  let m := bytesToWords64 block
  let v := h ++ blakeIV
  let v := v.set 12 ((lget v 12) ^^^ (t % w64))
  let v := v.set 13 ((lget v 13) ^^^ (t / w64))
  let v := if final then v.set 14 ((lget v 14) ^^^ (w64 - 1)) else v
  let v := (List.range 12).foldl
    (fun v r => blakeRound m v (blakeSigma.getD (r % 10) [])) v
  (List.range 8).map (fun i => (lget h i) ^^^ (lget v i) ^^^ (lget v (i + 8)))

/-- Zero-pad a final block to 128 bytes. -/
def padTo128 (bs : List Nat) : List Nat :=
  bs ++ List.replicate (128 - bs.length) 0

/-- The block loop: compress full 128-byte blocks, then the zero-padded
final block with the final flag.  The fuel argument (structural recursion,
so that proofs can evaluate the function) is the remaining byte count,
which bounds the number of blocks. -/
def blakeLoopF : Nat → List Nat → Nat → List Nat → List Nat
  | 0, h, consumed, rest => compress h (padTo128 rest) (consumed + rest.length) true
  | fuel + 1, h, consumed, rest =>
    if rest.length ≤ 128 then
      compress h (padTo128 rest) (consumed + rest.length) true
    else
      blakeLoopF fuel (compress h (rest.take 128) (consumed + 128) false)
        (consumed + 128) (rest.drop 128)

/-- BLAKE2b-256 of a byte string: parameter block for an unkeyed 32-byte
digest folded into h0, then the block loop, then the first 32 digest
bytes. -/
def blake2b256 (msg : List Nat) : List Nat :=
  let h0 := blakeIV.set 0 ((lget blakeIV 0) ^^^ 0x01010020)
  let h := blakeLoopF msg.length h0 0 msg
  ((h.map word64ToBytes).flatten).take 32

/-! ## Address derivation and ingress canonicalization (shared package) -/

/-- The lowercase hexadecimal alphabet of hex.EncodeToString. -/
def hexDigitsList : List Char := "0123456789abcdef".data

/-- Two lowercase hex characters of one byte. -/
def byteToHex (b : Nat) : List Char :=
  [hexDigitsList.getD (b / 16) '0', hexDigitsList.getD (b % 16) '0']

/-- hex.EncodeToString. -/
def hexEncode (bs : List Nat) : String :=
  String.mk ((bs.map byteToHex).flatten)

/-- computeAddressFromPublicKey (part_002 revision of the shared package):
hex.EncodeToString(pubKey) - the hex of the key bytes themselves, marked
Simplified in the source. -/
def computeAddressFromPublicKey (pubKey : List Nat) : String :=
  hexEncode pubKey

/-- computeAddressFromPublicKey (shared/transaction.go revision): a fresh
BLAKE2b-256 hasher with nothing written, then hasher.Sum(pubKey), which
APPENDS the digest of the empty input to pubKey; the result is the hex of
pubKey followed by blake2b256 of the empty string. -/
def computeAddressFromPublicKeyTxGo (pubKey : List Nat) : String :=
  hexEncode (pubKey ++ blake2b256 [])

/-- PublicKeyToAddress (part_002): hex.EncodeToString(cachedHashData
(pubKey)), the hex of the BLAKE2b-256 digest of the key. -/
def publicKeyToAddress (pubKey : List Nat) : String :=
  hexEncode (blake2b256 pubKey)

/-- The address derivation as the spec words it: the lowercase hex of the
BLAKE2b-256 digest of the public key.  This follows the wording of the
spec and exists to be compared with computeAddressFromPublicKey above. -/
def specAddressFromPublicKey (pubKey : List Nat) : String :=
  hexEncode (blake2b256 pubKey)

/-- strings.TrimSpace's space test, for the ASCII range addresses live
in. -/
def isSpaceChar (c : Char) : Bool :=
  c == ' ' || c == '\t' || c == '\n' || Char.toNat c == 11 ||
    Char.toNat c == 12 || c == '\r'

/-- strings.TrimSpace over the character list of the address. -/
def trimSpace (cs : List Char) : List Char :=
  ((cs.dropWhile isSpaceChar).reverse.dropWhile isSpaceChar).reverse

/-- One character of the regex class [0-9a-fA-F]. -/
def isHexChar (c : Char) : Bool :=
  ('0' ≤ c && c ≤ '9') || ('a' ≤ c && c ≤ 'f') || ('A' ≤ c && c ≤ 'F')

/-- The anchored regex [0-9a-fA-F] repeated 40 to 64 times. -/
def addressRegexOk (cs : List Char) : Bool :=
  40 ≤ cs.length && cs.length ≤ 64 && cs.all isHexChar

/-- SanitizeAndFormatAddress (shared package): trim, lowercase, then match
the 40-64 character hexadecimal pattern; failures return an error. -/
def sanitizeAndFormatAddress (address : String) : Except String String :=
  let cleaned := (trimSpace address.data).map Char.toLower
  if addressRegexOk cleaned then Except.ok (String.mk cleaned)
  else Except.error "invalid address format"

/-! ## AES-CFB at-rest encryption (shared package)

aes.NewCipher accepts 16-, 24- or 32-byte keys; the keyed block
permutation itself is external library code, so the CFB layer is
parametrized by the block encryption function E (every function with
16-byte output is admitted, the real AES among them).  cipher.XORKeyStream
in CFB mode keeps a one-block register, initially the IV: each step XORs
the next up-to-16 plaintext bytes against E(register) and feeds the
produced (for decryption: consumed) ciphertext block back into the
register. -/

/-- Byte-wise XOR (truncating to the shorter operand, as XORKeyStream
never reads past either buffer). -/
def xorBytes (a b : List Nat) : List Nat := List.zipWith Nat.xor a b

/-- Go's valid AES key sizes. -/
def aesKeySizeOk (key : List Nat) : Bool :=
  key.length == 16 || key.length == 24 || key.length == 32

/-- The CFB encryption stream: XOR the next up-to-16 plaintext bytes
against the keystream block E(register) and feed the produced ciphertext
block into the register.  The fuel (the plaintext length in every use,
which bounds the number of blocks) makes the recursion structural so that
proofs can evaluate the function. -/
def cfbEncF (E : List Nat → List Nat) : Nat → List Nat → List Nat → List Nat
  | 0, _, _ => []
  | _ + 1, _, [] => []
  | fuel + 1, reg, x :: rest =>
    xorBytes ((x :: rest).take 16) ((E reg).take 16) ++
      cfbEncF E fuel (xorBytes ((x :: rest).take 16) ((E reg).take 16))
        ((x :: rest).drop 16)

/-- The CFB decryption stream: identical keystream, register fed with the
consumed ciphertext block. -/
def cfbDecF (E : List Nat → List Nat) : Nat → List Nat → List Nat → List Nat
  | 0, _, _ => []
  | _ + 1, _, [] => []
  | fuel + 1, reg, x :: rest =>
    xorBytes ((x :: rest).take 16) ((E reg).take 16) ++
      cfbDecF E fuel ((x :: rest).take 16) ((x :: rest).drop 16)

/-- EncryptWithAES: reject a bad key size, then emit the IV followed by
the CFB stream of the plaintext (the Go code draws the IV from
crypto/rand; it is passed in here). -/
def encryptWithAES (E : List Nat → List Nat) (key iv plaintext : List Nat) :
    Option (List Nat) :=
  if aesKeySizeOk key then some (iv ++ cfbEncF E plaintext.length iv plaintext)
  else none

/-- DecryptWithAES: reject a bad key size, fail explicitly on ciphertext
shorter than one AES block, else split off the IV and run the CFB stream
backwards. -/
def decryptWithAES (E : List Nat → List Nat) (key ciphertext : List Nat) :
    Option (List Nat) :=
  if !aesKeySizeOk key then none
  else if ciphertext.length < 16 then none
  else
    let iv := ciphertext.take 16
    let body := ciphertext.drop 16
    some (cfbDecF E body.length iv body)

/-- Decidable equality of Except results, so that concrete runs of the
fallible operations can be checked by evaluation. -/
instance {ε α : Type} [DecidableEq ε] [DecidableEq α] : DecidableEq (Except ε α) :=
  fun x y =>
    match x, y with
    | Except.ok a, Except.ok b =>
      if h : a = b then Decidable.isTrue (by rw [h])
      else Decidable.isFalse (fun hc => h (Except.ok.inj hc))
    | Except.error a, Except.error b =>
      if h : a = b then Decidable.isTrue (by rw [h])
      else Decidable.isFalse (fun hc => h (Except.error.inj hc))
    | Except.ok _, Except.error _ =>
      Decidable.isFalse (fun hc => Except.noConfusion hc)
    | Except.error _, Except.ok _ =>
      Decidable.isFalse (fun hc => Except.noConfusion hc)

/-! ## Concrete fixtures used by the concrete theorems below -/

/-- An unspent input of amount 100 owned by alice. -/
def txInput0 : UTXO :=
  { transactionID := "prev", index := 0, ownerAddress := "alice",
    amount := 100, isSpent := false }

/-- An output of amount 100 to bob. -/
def txOutput0 : UTXO :=
  { transactionID := "tx1", index := 0, ownerAddress := "bob",
    amount := 100, isSpent := false }

/-- An output of amount 50 to bob (used to break conservation). -/
def txOutput50 : UTXO :=
  { transactionID := "tx2", index := 0, ownerAddress := "bob",
    amount := 50, isSpent := false }

/-- A balanced, not yet signed transaction. -/
def tx0 : ThrylosTx :=
  { id := "tx1", sender := "alice", timestamp := 0, inputs := [txInput0],
    outputs := [txOutput0], signature := SigField.empty, previousTxIds := [] }

/-- A transaction whose input sum 100 differs from its output sum 50,
before signing. -/
def txUnconservedBase : ThrylosTx :=
  { id := "tx2", sender := "alice", timestamp := 0, inputs := [txInput0],
    outputs := [txOutput50], signature := SigField.empty, previousTxIds := [] }

/-- The unconserved transaction carrying the exact signature
VerifyTransaction (part_002) checks for: key 7 over the BLAKE2b hash of
the cleared serialized bytes. -/
def txUnconserved : ThrylosTx :=
  { txUnconservedBase with
    signature := ed25519Sign 7 (cachedHashData (protoMarshal txUnconservedBase)) }

/-- A spent ledger entry owned by alice. -/
def spentUTXO : UTXO :=
  { transactionID := "t1", index := 0, ownerAddress := "alice",
    amount := 5, isSpent := true }

/-- An unspent ledger entry owned by alice. -/
def unspentUTXO : UTXO :=
  { transactionID := "t1", index := 1, ownerAddress := "alice",
    amount := 7, isSpent := false }

/-- A store holding one spent UTXO of alice under its ledger key. -/
def utxoStoreSpent : List (String × UTXO) := [("utxo-alice-t1-0", spentUTXO)]

/-- A store holding blocks 0 through 10 under the decimal block- keys. -/
def blockStore11 : List (String × List Nat) :=
  [("block-0", [0]), ("block-1", [1]), ("block-2", [2]), ("block-3", [3]),
   ("block-4", [4]), ("block-5", [5]), ("block-6", [6]), ("block-7", [7]),
   ("block-8", [8]), ("block-9", [9]), ("block-10", [10])]

/-- A store holding block 0 alongside one persisted transaction. -/
def blockStoreMixed : List (String × List Nat) :=
  [("block-0", [0]), ("transaction-t1", [42])]

/-- A 32-byte public-key byte string. -/
def pk0 : List Nat := List.range 32

/-- A 32-byte AES key. -/
def aesKey0 : List Nat := List.replicate 32 0

/-- A 16-byte IV. -/
def iv0 : List Nat := List.replicate 16 0

/-- A model block-encryption function with the 16-byte output of every
AES block permutation. -/
def constE : List Nat → List Nat := fun _ => List.replicate 16 0

/-! # Theorems -/

/-- Claim C1: for every transaction and Ed25519 key pair, SignTransaction
followed by VerifyTransaction (or VerifyTransactionSignature) under the
matching public key is claimed to succeed.  The code rejects the honestly
signed transaction: SignTransaction signs the serialized bytes of the
transaction, but VerifyTransactionSignature verifies over bytes that
include the now-filled signature field, and VerifyTransaction verifies
the signature against the BLAKE2b hash of the cleared bytes rather than
against the bytes that were signed, so the round trip fails on both
paths. -/
theorem C1_sign_then_verify_fails :
    verifyTransactionSignature (signTransaction tx0 7) 7 =
      Except.error "Ed25519 signature verification failed" ∧
    verifyTransaction (signTransaction tx0 7) []
        (fun _ => Except.ok 7) =
      Except.error "Transaction signature verification failed" := by
  decide

/-- Claim C2: VerifyTransaction is claimed to succeed only when all five
checks hold.  The code returns success for txUnconserved although its
input sum 100 differs from its output sum 50 and its input exists in no
UTXO set: after the inputs-non-empty, key-lookup and signature checks the
function returns (true, nil), the UTXO, conservation and timestamp checks
being absent.  The separate ValidateTransaction, which VerifyTransaction
never calls, would have rejected it. -/
theorem C2_verify_accepts_unconserved :
    verifyTransaction txUnconserved [] (fun _ => Except.ok 7) =
      Except.ok true ∧
    sumAmounts txUnconserved.inputs ≠ sumAmounts txUnconserved.outputs ∧
    validateTransaction txUnconserved [] = false := by
  decide

/-- Claim C3 counterexample: adding a transaction whose id is already in
the pool is claimed to leave the pool unchanged; AddPendingTransaction
appends a second copy instead, so the pool grows from one entry to two
entries with the same id. -/
theorem C3_counterexample :
    ((addPendingTransaction (addPendingTransaction [] tx0) tx0).map
        (fun tx => tx.id) = ["tx1", "tx1"]) ∧
    (addPendingTransaction (addPendingTransaction [] tx0) tx0).length ≠
      (addPendingTransaction [] tx0).length := by
  decide

/-- Claim C3 amended: AddPendingTransaction performs no verification and
no duplicate check; it unconditionally appends, so every submission -
including one whose id is already present - grows the pool by exactly one
entry. -/
theorem C3_amended_always_appends (pool : List ThrylosTx) (tx : ThrylosTx) :
    addPendingTransaction pool tx = pool ++ [tx] ∧
    (addPendingTransaction pool tx).length = pool.length + 1 := by
  refine ⟨rfl, ?_⟩
  simp [addPendingTransaction]

/-- Witness for the amended C3 theorem at the empty pool and tx0. -/
theorem C3_amended_always_appends_witness :
    addPendingTransaction [] tx0 = [] ++ [tx0] ∧
    (addPendingTransaction [] tx0).length =
      List.length ([] : List ThrylosTx) + 1 :=
  C3_amended_always_appends [] tx0

/-- Claim C5 counterexample: the walk is claimed to visit stakeholders in
lexicographic address order so that identical RNG output yields identical
selections.  The code walks the Go map's enumeration order: the two
enumerations of the same table (a up to 1, b up to 1) return different
validators for the same draw r = 0, and the enumeration starting at b
disagrees with the spec's lexicographic walk. -/
theorem C5_counterexample :
    selectValidator [("b", 1), ("a", 1)] 0 = some "b" ∧
    selectValidator [("a", 1), ("b", 1)] 0 = some "a" ∧
    specSelectValidator [("b", 1), ("a", 1)] 0 = some "a" := by
  decide

/-- Shifting the foldl accumulator of totalStake. -/
theorem totalStake_foldl_init (l : List (String × Int)) (init : Int) :
    l.foldl (fun acc p => acc + p.2) init = init + totalStake l := by
  induction l generalizing init with
  | nil => simp [totalStake]
  | cons p rest ih =>
    simp only [totalStake, List.foldl_cons] at *
    rw [ih (init + p.2), ih (0 + p.2)]
    ring

/-- totalStake of a cons cell. -/
theorem totalStake_cons (a : String) (st : Int) (rest : List (String × Int)) :
    totalStake ((a, st) :: rest) = st + totalStake rest := by
  simp only [totalStake, List.foldl_cons]
  rw [totalStake_foldl_init rest (0 + st), totalStake_foldl_init rest 0]
  ring

/-- The subtracting walk succeeds whenever the draw lies below the total
stake. -/
theorem walkStake_isSome (l : List (String × Int)) (r : Int)
    (h0 : 0 ≤ r) (h1 : r < totalStake l) : (walkStake r l).isSome = true := by
  induction l generalizing r with
  | nil =>
    simp [totalStake] at h1
    omega
  | cons p rest ih =>
    obtain ⟨a, st⟩ := p
    rw [totalStake_cons] at h1
    rw [walkStake]
    by_cases hneg : r - st < 0
    · simp [hneg]
    · simp only [hneg, if_false]
      exact ih (r - st) (by omega) (by omega)

/-- The subtracting walk only returns addresses of the table. -/
theorem walkStake_mem (l : List (String × Int)) (r : Int) (a : String)
    (h : walkStake r l = some a) : a ∈ l.map Prod.fst := by
  induction l generalizing r with
  | nil => simp [walkStake] at h
  | cons p rest ih =>
    obtain ⟨addr, st⟩ := p
    rw [walkStake] at h
    by_cases hneg : r - st < 0
    · simp [hneg] at h
      simp [h]
    · simp only [hneg, if_false] at h
      simp [ih (r - st) h]

/-- Claim C5 amended: SelectValidator walks the stakeholders in the Go
map's unspecified enumeration order, subtracting each stake from r until
r is negative; for every draw r with 0 ≤ r below the total stake the walk
returns some stakeholder of the table, and it is deterministic only up to
that enumeration order (the counterexample shows two orders of the same
table disagreeing). -/
theorem C5_amended_walk (stakeholders : List (String × Int)) (r : Int) :
    (0 ≤ r → r < totalStake stakeholders →
      (selectValidator stakeholders r).isSome = true) ∧
    (∀ a, selectValidator stakeholders r = some a →
      a ∈ stakeholders.map Prod.fst) := by
  constructor
  · intro h0 h1
    have hne : totalStake stakeholders ≠ 0 := by omega
    simp only [selectValidator, beq_iff_eq, hne, if_false]
    exact walkStake_isSome stakeholders r h0 h1
  · intro a ha
    simp only [selectValidator] at ha
    by_cases hz : totalStake stakeholders == 0
    · simp [hz] at ha
    · simp only [hz, if_false] at ha
      exact walkStake_mem stakeholders r a ha

/-- Witness for the amended C5 theorem at the one-entry table (a, 2) and
the draw r = 1. -/
theorem C5_amended_walk_witness :
    (selectValidator [("a", 2)] 1).isSome = true ∧
    "a" ∈ ([("a", 2)] : List (String × Int)).map Prod.fst :=
  ⟨(C5_amended_walk [("a", 2)] 1).1 (by decide) (by decide),
   (C5_amended_walk [("a", 2)] 1).2 "a" (by decide)⟩

/-- Claim C7: with blocks 0 through 10 persisted the reverse iteration is
claimed to return the block of highest index 10 and GetLastBlockIndex to
return 10.  The decimal keys are compared byte-wise, the greatest block
key is block-9, so the code returns block 9; and with any key sorting
after the block keys present (a transaction key here) GetLastBlockIndex
inspects only the overall greatest key and reports that no blocks exist,
although block-0 is persisted.  With no blocks both operations fail as
claimed. -/
theorem C7_last_block_wrong :
    getLastBlockData blockStore11 = Except.ok ([9], 9) ∧
    getLastBlockData blockStore11 ≠ Except.ok ([10], 10) ∧
    getLastBlockIndex blockStore11 = Except.ok 9 ∧
    getLastBlockIndex blockStoreMixed =
      Except.error "no blocks found in the database" ∧
    getLastBlockData [] = Except.error "no blocks found in the database" ∧
    getLastBlockIndex [] = Except.error "no blocks found in the database" := by
  decide

/-- Claim C8: with the empty stakeholder table the total stake is zero and
SelectValidator returns its failure sentinel (the empty string, modelled
as none) for every RNG draw, rather than any usable address. -/
theorem C8_empty_table_fails (r : Int) : selectValidator [] r = none := rfl

/-- Witness for the C8 theorem at the draw r = 5. -/
theorem C8_empty_table_fails_witness : selectValidator [] 5 = none :=
  C8_empty_table_fails 5

/-- Claim C4 counterexample: lookups are claimed never to return spent
entries.  GetUTXOsForAddress returns the spent entry stored under alice's
ledger key, GetUTXOsForUser returns it from the utxos map, and GetBalance
counts its amount. -/
theorem C4_counterexample :
    getUTXOsForAddress utxoStoreSpent "alice" = [spentUTXO] ∧
    spentUTXO.isSpent = true ∧
    getUTXOsForUser "alice" utxoStoreSpent = [spentUTXO] ∧
    getBalance "alice" utxoStoreSpent = 5 := by
  decide

/-- Claim C4 amended: only GetUTXOs consults the spent flag - every entry
it returns is unspent - while GetUTXOsForAddress and GetUTXOsForUser
return matching entries regardless of the flag (GetUTXOsForUser returns
every stored value owned by the address, spent ones included). -/
theorem C4_amended_filtering :
    (∀ (store : List (String × UTXO)) (address : String) (u : UTXO),
        u ∈ getUTXOs store address → u.isSpent = false) ∧
    (∀ (utxos : List (String × UTXO)) (address : String) (u : UTXO),
        u ∈ utxos.map Prod.snd → u.ownerAddress = address →
        u ∈ getUTXOsForUser address utxos) := by
  constructor
  · intro store address u hu
    simp only [getUTXOs, List.mem_map, List.mem_filter, Bool.and_eq_true,
      Bool.not_eq_true'] at hu
    obtain ⟨kv, ⟨_, _, hspent⟩, rfl⟩ := hu
    exact hspent
  · intro utxos address u hu hown
    simp only [getUTXOsForUser, List.mem_filter]
    exact ⟨hu, by simp [hown]⟩

/-- Witness for the amended C4 theorem at a one-entry store holding an
unspent UTXO of alice. -/
theorem C4_amended_filtering_witness :
    unspentUTXO.isSpent = false ∧
    unspentUTXO ∈ getUTXOsForUser "alice" [("k", unspentUTXO)] :=
  ⟨C4_amended_filtering.1 [("utxo-alice-t1-1", unspentUTXO)] "alice"
      unspentUTXO (by decide),
   C4_amended_filtering.2 [("k", unspentUTXO)] "alice" unspentUTXO
      (by decide) (by decide)⟩

/-- Claim C6 (spec-modelled): the reward an address receives depends on
its stake history only through its time-weighted stake integral, so two
addresses with identical integrals - in particular identical histories -
receive identical rewards; and the curve that stakes twice the amount for
the first half of the period has the same integral as the curve staking
the baseline amount for the whole period, hence earns the same reward. -/
theorem C6_reward_time_weighted :
    (∀ (T0 T1 budget : Int) (table : List (String × List (Int × Int)))
        (a b : String),
        integralOver T0 T1 (histOf table a) = integralOver T0 T1 (histOf table b) →
        calculateStakeReward T0 T1 budget table a =
          calculateStakeReward T0 T1 budget table b) ∧
    (∀ (T0 d s : Int), 0 ≤ d →
        integralOver T0 (T0 + 2 * d) [(T0, 2 * s), (T0 + d, -(2 * s))] =
          integralOver T0 (T0 + 2 * d) [(T0, s)]) := by
  constructor
  · intro T0 T1 budget table a b h
    simp only [calculateStakeReward]
    rw [h]
  · intro T0 d s hd
    rcases lt_or_eq_of_le hd with hdpos | hdz
    · have h1 : ¬(T0 + d ≤ T0) := by omega
      have h2 : ¬(T0 + 2 * d ≤ T0 + d) := by omega
      simp only [integralOver, stakeIntegral, le_refl, if_true, if_neg h1,
        if_neg h2]
      ring
    · rw [← hdz]
      simp only [integralOver, stakeIntegral, le_refl, if_true, add_zero]
      ring

/-- Witness for the C6 theorem: two addresses with the same history in
the same table receive the same reward, and the half-period double-stake
integral identity at T0 = 0, d = 3, s = 5. -/
theorem C6_reward_time_weighted_witness :
    calculateStakeReward 0 100 1000 [("x", [(0, 5)]), ("y", [(0, 5)])] "x" =
      calculateStakeReward 0 100 1000 [("x", [(0, 5)]), ("y", [(0, 5)])] "y" ∧
    integralOver 0 (0 + 2 * 3) [(0, 2 * 5), (0 + 3, -(2 * 5))] =
      integralOver 0 (0 + 2 * 3) [(0, 5)] :=
  ⟨C6_reward_time_weighted.1 0 100 1000 [("x", [(0, 5)]), ("y", [(0, 5)])]
      "x" "y" (by decide),
   C6_reward_time_weighted.2 0 3 5 (by decide)⟩

/-- Every lookup into the hex alphabet lands in the hex alphabet. -/
theorem hexDigitsList_getD_mem (n : Nat) :
    hexDigitsList.getD n '0' ∈ hexDigitsList := by
  by_cases h : n < 16
  · interval_cases n <;> decide
  · rw [List.getD_eq_default]
    · decide
    · have hlen : hexDigitsList.length = 16 := by decide
      omega

/-- Every character of a hex encoding is from the hex alphabet. -/
theorem mem_hexEncode_data (bs : List Nat) (c : Char)
    (hc : c ∈ (bs.map byteToHex).flatten) : c ∈ hexDigitsList := by
  simp only [List.mem_flatten, List.mem_map] at hc
  obtain ⟨l, ⟨b, _, rfl⟩, hcl⟩ := hc
  simp only [byteToHex, List.mem_cons, List.not_mem_nil, or_false] at hcl
  rcases hcl with rfl | rfl
  · exact hexDigitsList_getD_mem (b / 16)
  · exact hexDigitsList_getD_mem (b % 16)

/-- Characters of the hex alphabet are not whitespace, are their own
lowercase form, and match the address regex class. -/
theorem hex_char_props :
    ∀ c ∈ hexDigitsList,
      isSpaceChar c = false ∧ Char.toLower c = c ∧ isHexChar c = true := by
  decide

/-- A hex encoding has two characters per byte. -/
theorem hexEncode_data_length (bs : List Nat) :
    ((bs.map byteToHex).flatten).length = 2 * bs.length := by
  induction bs with
  | nil => rfl
  | cons b rest ih =>
    simp only [List.map_cons, List.flatten_cons, List.length_append, ih,
      byteToHex, List.length_cons, List.length_nil, List.length_cons]
    omega

/-- dropWhile is the identity when no element satisfies the test. -/
theorem dropWhile_of_none (p : Char → Bool) (l : List Char)
    (h : ∀ c ∈ l, p c = false) : l.dropWhile p = l := by
  cases l with
  | nil => rfl
  | cons a as => simp [List.dropWhile_cons, h a (List.mem_cons_self a as)]

/-- Trimming is the identity on whitespace-free character lists. -/
theorem trimSpace_of_no_space (l : List Char)
    (h : ∀ c ∈ l, isSpaceChar c = false) : trimSpace l = l := by
  unfold trimSpace
  rw [dropWhile_of_none _ l h,
    dropWhile_of_none _ l.reverse (fun c hc => h c (List.mem_reverse.mp hc)),
    List.reverse_reverse]

/-- Lowercasing is the identity on lists of already-lowercase characters. -/
theorem map_toLower_of_lower (l : List Char)
    (h : ∀ c ∈ l, Char.toLower c = c) : l.map Char.toLower = l := by
  induction l with
  | nil => rfl
  | cons a as ih =>
    simp only [List.map_cons, h a (List.mem_cons_self a as)]
    rw [ih (fun c hc => h c (List.mem_cons_of_mem a hc))]

set_option maxRecDepth 10000 in
/-- Claim C9 counterexample: the derived address is claimed to equal the
lowercase hex of the BLAKE2b-256 digest of the public key.  On the 32-byte
key pk0, computeAddressFromPublicKey (part_002, hex of the key itself)
differs from that digest encoding; and the shared/transaction.go revision,
whose hasher.Sum(pubKey) appends the digest of the empty input to the key,
yields a 128-character string that ingress canonicalization rejects. -/
theorem C9_counterexample :
    computeAddressFromPublicKey pk0 ≠ specAddressFromPublicKey pk0 ∧
    sanitizeAndFormatAddress (computeAddressFromPublicKeyTxGo pk0) =
      Except.error "invalid address format" := by
  decide

/-- Claim C9 amended: the derived address is the lowercase hex encoding of
the 32-byte public key itself (64 characters), and that string does pass
ingress canonicalization: trimming and lowercasing leave it unchanged and
it matches the 40-64 character hexadecimal pattern. -/
theorem C9_amended_address (pk : List Nat) (h : pk.length = 32) :
    sanitizeAndFormatAddress (computeAddressFromPublicKey pk) =
      Except.ok (computeAddressFromPublicKey pk) ∧
    (computeAddressFromPublicKey pk).length = 64 := by
  have hall : ∀ c ∈ (pk.map byteToHex).flatten, c ∈ hexDigitsList :=
    fun c hc => mem_hexEncode_data pk c hc
  have hspace : ∀ c ∈ (pk.map byteToHex).flatten, isSpaceChar c = false :=
    fun c hc => (hex_char_props c (hall c hc)).1
  have hlower : ∀ c ∈ (pk.map byteToHex).flatten, Char.toLower c = c :=
    fun c hc => (hex_char_props c (hall c hc)).2.1
  have hhex : ∀ c ∈ (pk.map byteToHex).flatten, isHexChar c = true :=
    fun c hc => (hex_char_props c (hall c hc)).2.2
  have hlen : ((pk.map byteToHex).flatten).length = 64 := by
    rw [hexEncode_data_length, h]
  constructor
  · simp only [computeAddressFromPublicKey, sanitizeAndFormatAddress,
      hexEncode, String.data]
    rw [trimSpace_of_no_space _ hspace, map_toLower_of_lower _ hlower]
    have hok : addressRegexOk ((pk.map byteToHex).flatten) = true := by
      simp only [addressRegexOk, hlen, List.all_eq_true, Bool.and_eq_true,
        decide_eq_true_eq]
      exact ⟨⟨by omega, by omega⟩, hhex⟩
    rw [hok]
    simp
  · simp only [computeAddressFromPublicKey, hexEncode, String.length,
      String.data]
    exact hlen

/-- Witness for the amended C9 theorem at the all-zero 32-byte key. -/
theorem C9_amended_address_witness :
    sanitizeAndFormatAddress (computeAddressFromPublicKey (List.replicate 32 0)) =
      Except.ok (computeAddressFromPublicKey (List.replicate 32 0)) ∧
    (computeAddressFromPublicKey (List.replicate 32 0)).length = 64 :=
  C9_amended_address (List.replicate 32 0) (by decide)

/-- XOR against the same keystream twice gives back the plaintext (the
keystream must cover the data). -/
theorem xorBytes_xorBytes_cancel (a : List Nat) :
    ∀ k : List Nat, a.length ≤ k.length → xorBytes (xorBytes a k) k = a := by
  induction a with
  | nil => intro k _; rfl
  | cons x xs ih =>
    intro k hk
    cases k with
    | nil =>
      simp only [List.length_cons, List.length_nil, Nat.le_zero] at hk
      exact absurd hk (Nat.succ_ne_zero _)
    | cons y ys =>
      simp only [List.length_cons] at hk
      simp only [xorBytes, List.zipWith_cons_cons, List.cons.injEq]
      refine ⟨?_, ih ys (by omega)⟩
      exact Nat.xor_cancel_right y x

/-- The keystream block of a 16-byte block function has 16 bytes. -/
theorem keystream_length (E : List Nat → List Nat)
    (hE : ∀ b, (E b).length = 16) (reg : List Nat) :
    ((E reg).take 16).length = 16 := by
  rw [List.length_take, hE reg]
  omega

/-- One CFB output chunk is as long as the consumed data chunk. -/
theorem cfb_chunk_length (E : List Nat → List Nat)
    (hE : ∀ b, (E b).length = 16) (reg p : List Nat) :
    (xorBytes (p.take 16) ((E reg).take 16)).length = min p.length 16 := by
  simp only [xorBytes, List.length_zipWith, List.length_take, hE reg]
  omega

/-- The CFB stream preserves length when the fuel covers the data and the
block function outputs 16 bytes. -/
theorem cfbEncF_length (E : List Nat → List Nat) (hE : ∀ b, (E b).length = 16) :
    ∀ (fuel : Nat) (reg p : List Nat), p.length ≤ 16 * fuel →
      (cfbEncF E fuel reg p).length = p.length := by
  intro fuel
  induction fuel with
  | zero =>
    intro reg p hp
    have : p = [] := List.eq_nil_of_length_eq_zero (by omega)
    subst this
    rfl
  | succ f ih =>
    intro reg p hp
    cases p with
    | nil => rfl
    | cons x xs =>
      rw [cfbEncF, List.length_append, cfb_chunk_length E hE,
        ih _ ((x :: xs).drop 16) (by rw [List.length_drop]; omega),
        List.length_drop]
      simp only [List.length_cons] at hp ⊢
      omega

/-- The CFB decryption stream is a left inverse of the CFB encryption
stream run with the same fuel, register and block function. -/
theorem cfbDecF_cfbEncF (E : List Nat → List Nat) (hE : ∀ b, (E b).length = 16) :
    ∀ (fuel : Nat) (reg p : List Nat), p.length ≤ 16 * fuel →
      cfbDecF E fuel reg (cfbEncF E fuel reg p) = p := by
  intro fuel
  induction fuel with
  | zero =>
    intro reg p hp
    have : p = [] := List.eq_nil_of_length_eq_zero (by omega)
    subst this
    rfl
  | succ f ih =>
    intro reg p hp
    cases p with
    | nil => rfl
    | cons x xs =>
      rw [cfbEncF]
      have hks := keystream_length E hE reg
      have hclen := cfb_chunk_length E hE reg (x :: xs)
      set c := xorBytes ((x :: xs).take 16) ((E reg).take 16) with hc
      obtain ⟨hd, tl, hcons⟩ : ∃ hd tl, c = hd :: tl := by
        cases hcc : c with
        | nil =>
          exfalso
          rw [hcc] at hclen
          simp only [List.length_nil, List.length_cons] at hclen
          omega
        | cons hd tl => exact ⟨hd, tl, rfl⟩
      have hxor : xorBytes c ((E reg).take 16) = (x :: xs).take 16 := by
        rw [hc]
        exact xorBytes_xorBytes_cancel _ _ (by rw [hks, List.length_take]; omega)
      by_cases hlong : 16 ≤ (x :: xs).length
      · have hc16 : c.length = 16 := by
          simp only [List.length_cons] at hclen hlong ⊢
          omega
        have htake : (c ++ cfbEncF E f c ((x :: xs).drop 16)).take 16 = c := by
          rw [← hc16, List.take_left]
        have hdrop : (c ++ cfbEncF E f c ((x :: xs).drop 16)).drop 16 =
            cfbEncF E f c ((x :: xs).drop 16) := by
          rw [← hc16, List.drop_left]
        rw [hcons, List.cons_append, cfbDecF, ← List.cons_append, ← hcons,
          htake, hdrop, hxor,
          ih _ ((x :: xs).drop 16) (by rw [List.length_drop]; omega)]
        exact List.take_append_drop 16 (x :: xs)
      · have hcshort : c.length < 16 := by
          simp only [List.length_cons] at hclen hlong ⊢
          omega
        have hdropnil : (x :: xs).drop 16 = [] :=
          List.drop_eq_nil_of_le (by simp only [List.length_cons] at hlong ⊢; omega)
        have hencnil : cfbEncF E f c ((x :: xs).drop 16) = [] := by
          rw [hdropnil]
          cases f <;> rfl
        have hdecnil : cfbDecF E f c [] = [] := by cases f <;> rfl
        rw [hencnil, List.append_nil, hcons, cfbDecF, ← hcons,
          List.take_of_length_le (by omega),
          List.drop_eq_nil_of_le (by omega), hdecnil, List.append_nil, hxor]
        exact List.take_of_length_le
          (by simp only [List.length_cons] at hlong ⊢; omega)

/-- Claim C10: for every block function of AES's shape (16-byte output),
every 16-, 24- or 32-byte key, every 16-byte IV and every plaintext,
DecryptWithAES undoes EncryptWithAES, and DecryptWithAES fails explicitly
on any ciphertext shorter than one AES block. -/
theorem C10_aes_cfb_roundtrip (E : List Nat → List Nat) (key iv p : List Nat)
    (hE : ∀ b, (E b).length = 16) (hkey : aesKeySizeOk key = true)
    (hiv : iv.length = 16) :
    (∀ ct, encryptWithAES E key iv p = some ct →
      decryptWithAES E key ct = some p) ∧
    (∀ c, c.length < 16 → decryptWithAES E key c = none) := by
  constructor
  · intro ct hct
    simp only [encryptWithAES, hkey, if_true, Option.some.injEq] at hct
    subst hct
    have henclen : (cfbEncF E p.length iv p).length = p.length :=
      cfbEncF_length E hE p.length iv p (by omega)
    have hlen : (iv ++ cfbEncF E p.length iv p).length = 16 + p.length := by
      rw [List.length_append, hiv, henclen]
    simp only [decryptWithAES, hkey, Bool.not_true, Bool.false_eq_true,
      if_false, hlen]
    rw [if_neg (by omega)]
    rw [show (16 : Nat) = iv.length from hiv.symm, List.take_left,
      List.drop_left, henclen]
    rw [cfbDecF_cfbEncF E hE p.length iv p (by omega)]
  · intro c hc
    simp only [decryptWithAES, hkey, Bool.not_true, Bool.false_eq_true,
      if_false]
    rw [if_pos hc]

/-- Witness for the C10 theorem: a concrete three-byte round trip under
the constant model block function, and rejection of a two-byte
ciphertext. -/
theorem C10_aes_cfb_roundtrip_witness :
    decryptWithAES constE aesKey0 (iv0 ++ cfbEncF constE 3 iv0 [1, 2, 3]) =
      some [1, 2, 3] ∧
    decryptWithAES constE aesKey0 [0, 1] = none :=
  ⟨(C10_aes_cfb_roundtrip constE aesKey0 iv0 [1, 2, 3] (fun _ => rfl)
      (by decide) (by decide)).1 _ rfl,
   (C10_aes_cfb_roundtrip constE aesKey0 iv0 [1, 2, 3] (fun _ => rfl)
      (by decide) (by decide)).2 [0, 1] (by decide)⟩

end Thrylos
